import Mathlib

/-
  Shallow embedding of the annotation-queue claim/lease/enrollment core of
  get-theo-ai/langfuse:
    web/src/server/api/routers/annotationQueues.ts      (procedure `next`)
    web/src/server/api/routers/annotationQueueItems.ts  (procedures `create`,
      `createMany`, `delete`, `complete`)

  The item store is a list of rows in physical order.  Identifiers (row ids,
  project ids, queue ids, object ids, user ids) are opaque strings in the
  source; they are embedded as Nat (only equality and, for the id tie-break
  question, an order are used).  Timestamps are milliseconds since epoch,
  embedded as Int (JavaScript Date.getTime() arithmetic).
-/

namespace AQ

/-- The closed enumeration AnnotationQueueObjectType of reviewable entities. -/
inductive ObjType where
  | OBSERVATION
  | TRACE
  | SESSION
  | DATASET_ITEM
deriving DecidableEq, Repr

/-- AnnotationQueueStatus: a claimed item is still PENDING, the claim being
signaled by the lease fields, not by a separate status value. -/
inductive QStatus where
  | PENDING
  | COMPLETED
deriving DecidableEq, Repr

/-- One row of the annotation_queue_items table, with the columns the four
operations read or write.  `editStartTime` / `editStartByUserId` are the lease
fields (the spec's `leaseStartedAt` / `leaseHolderId`); `annotatorUserId` is
the spec's `completedById`. -/
structure QueueItem where
  id : Nat
  projectId : Nat
  queueId : Nat
  objectId : Nat
  objectType : ObjType
  status : QStatus
  editStartTime : Option Int
  editStartByUserId : Option Nat
  completedAt : Option Int
  annotatorUserId : Option Nat
  createdAt : Int
deriving DecidableEq, Repr

/-- The item store: rows in physical order. -/
abbrev Store := List QueueItem

/-- The fixed lease duration: `5 * 60 * 1000` ms in `next`
(annotationQueues.ts line 329). -/
def leaseDurationMs : Int := 5 * 60 * 1000

/-- The lease disjunct of `next`'s where clause:
`OR: [{editStartTime: null}, {editStartTime: {lt: fiveMinutesAgo}}]` with
`fiveMinutesAgo = now - leaseDurationMs`.  Prisma's `lt` is strict. -/
def leaseElapsed (now : Int) (lease : Option Int) : Bool :=
  match lease with
  | none => true
  | some t => decide (t < now - leaseDurationMs)

/-- The full where clause of the `findFirst` in `next`: same queue and
project, status PENDING, and lease absent or elapsed. -/
def eligibleFor (q proj : Nat) (now : Int) (it : QueueItem) : Bool :=
  decide (it.queueId = q ∧ it.projectId = proj ∧ it.status = QStatus.PENDING)
    && leaseElapsed now it.editStartTime

/-- Row selection of `findFirst` with `orderBy: { createdAt: "asc" }`: the
first row, in store order, among those with minimal `createdAt`.  The query
orders by `createdAt` only, so which of several `createdAt`-tied rows comes
first is whatever order the store happens to hold them in; the list order of
the embedding stands for that store order. -/
def selectMin : List QueueItem → Option QueueItem
  | [] => none
  | it :: rest =>
    match selectMin rest with
    | none => some it
    | some b => if b.createdAt < it.createdAt then some b else some it

/-- The read step of `next`: the `findFirst` query (annotationQueues.ts
lines 331 to 344). -/
def claimNextRead (st : Store) (q proj : Nat) (now : Int) : Option QueueItem :=
  selectMin (st.filter (eligibleFor q proj now))

/-- The write step of `next`: the unconditional `update` by id and project
(annotationQueues.ts lines 348 to 357), setting only the two lease fields. -/
def writeClaim (st : Store) (itemId proj caller : Nat) (now : Int) : Store :=
  st.map (fun it =>
    if it.id = itemId ∧ it.projectId = proj then
      { it with editStartTime := some now, editStartByUserId := some caller }
    else it)

/-- The `next` procedure: read step, then (when a row was found) write step.
The two steps are two separate store calls in the source, with no transaction
and no condition on the prior lease state in the update.  The returned record
is the one the read produced (the source returns `item`, not the updated
row). -/
def claimNext (st : Store) (q proj caller : Nat) (now : Int) :
    Option QueueItem × Store :=
  match claimNextRead st q proj now with
  | none => (none, st)
  | some it => (some it, writeClaim st it.id proj caller now)

/-- One legal interleaving of two concurrent `next` calls on the same queue:
both `findFirst` reads execute before either `update` write.  Nothing in the
source serializes the read step with the other caller's write step, so this
interleaving is reachable. -/
def racedClaims (st : Store) (q proj c1 c2 : Nat) (now : Int) :
    Option QueueItem × Option QueueItem × Store :=
  let r1 := claimNextRead st q proj now
  let r2 := claimNextRead st q proj now
  let st1 := match r1 with
    | none => st
    | some it => writeClaim st it.id proj c1 now
  let st2 := match r2 with
    | none => st1
    | some it => writeClaim st1 it.id proj c2 now
  (r1, r2, st2)

/-- A run of successive non-overlapping `next` calls on one queue: each entry
of the schedule is (callerId, now). -/
def runClaims (st : Store) (q proj : Nat) :
    List (Nat × Int) → List (Option QueueItem) × Store
  | [] => ([], st)
  | c :: cs =>
    let step := claimNext st q proj c.1 c.2
    let rest := runClaims step.2 q proj cs
    (step.1 :: rest.1, rest.2)

/-- The dedup key of an item: (projectId, queueId, objectId, objectType). -/
def itemKey (it : QueueItem) : Nat × Nat × Nat × ObjType :=
  (it.projectId, it.queueId, it.objectId, it.objectType)

/-- Whether a row carries the given dedup key; this is also the where clause
of `complete`'s `updateMany` (queueId, projectId, objectId, objectType). -/
def matchKey (proj q obj : Nat) (ot : ObjType) (it : QueueItem) : Bool :=
  decide (itemKey it = (proj, q, obj, ot))

/-- Whether some row with the given dedup key is present in the store. -/
def pairExists (st : Store) (proj q obj : Nat) (ot : ObjType) : Bool :=
  st.any (matchKey proj q obj ot)

/-- The data of `complete`'s `updateMany`: status COMPLETED, `completedAt` =
now, `annotatorUserId` = the session user. -/
def completeStamp (userId : Nat) (now : Int) (it : QueueItem) : QueueItem :=
  { it with
    status := QStatus.COMPLETED
    completedAt := some now
    annotatorUserId := some userId }

/-- The `complete` procedure (annotationQueueItems.ts lines 280 to 305): an
`updateMany` whose where clause matches on (queueId, projectId, objectId,
objectType) only — with no condition on status or lease — stamping every
matching row and returning the matched-row count. -/
def complete (st : Store) (proj q obj : Nat) (ot : ObjType) (userId : Nat)
    (now : Int) : Nat × Store :=
  ((st.filter (matchKey proj q obj ot)).length,
   st.map (fun it =>
     if matchKey proj q obj ot it then completeStamp userId now it else it))

/-- A freshly enrolled row: status PENDING, lease and completion fields null,
`createdAt` stamped at insertion time. -/
def mkItem (id proj q obj : Nat) (ot : ObjType) (now : Int) : QueueItem :=
  { id := id
    projectId := proj
    queueId := q
    objectId := obj
    objectType := ot
    status := QStatus.PENDING
    editStartTime := none
    editStartByUserId := none
    completedAt := none
    annotatorUserId := none
    createdAt := now }

/-- Modelled from the spec: the Item Store's `bulkInsertIgnoreDuplicates`
behind Prisma `createMany` with `skipDuplicates: true`.  The unique
constraint it dedups against lives in the database schema, which is not
among the source files; per the spec (§3 I3, §4.3), rows are deduplicated on
the `(queueId, objectRef)` pair within a project, a row whose key already
exists being skipped without error, and the returned count covering only the
rows actually inserted. -/
def insertSkipDup (st : Store) (proj q : Nat) (ot : ObjType) (nextId : Nat)
    (now : Int) : List Nat → Nat × Store
  | [] => (0, st)
  | obj :: rest =>
    if pairExists st proj q obj ot then
      insertSkipDup st proj q ot nextId now rest
    else
      let step :=
        insertSkipDup (st ++ [mkItem nextId proj q obj ot now]) proj q ot
          (nextId + 1) now rest
      (step.1 + 1, step.2)

/-- `MAX_ITEMS = 500` in `createMany` (annotationQueueItems.ts line 154). -/
def MAX_ITEMS : Nat := 500

/-- The `createMany` procedure (annotationQueueItems.ts lines 137 to 182):
slice the input ids to the first `MAX_ITEMS`, bulk-insert them with duplicate
skipping, and report `count` (rows inserted), `totalRequested` (full input
length) and `created` (`min(length, MAX_ITEMS)`, the attempted count). -/
def createMany (st : Store) (proj q : Nat) (objectIds : List Nat)
    (ot : ObjType) (nextId : Nat) (now : Int) : (Nat × Nat × Nat) × Store :=
  let limited := objectIds.take MAX_ITEMS
  let r := insertSkipDup st proj q ot nextId now limited
  ((r.1, objectIds.length, min objectIds.length MAX_ITEMS), r.2)

inductive CreateError where
  | uniqueViolation
deriving DecidableEq, Repr

/-- The single-item `create` procedure (annotationQueueItems.ts lines 100 to
136): a plain insert.  Modelled from the spec for the store reaction to a
duplicate: the schema's unique constraint on the dedup key is not among the
source files, and per the spec (I3, dedup on insert) an insert of an existing
`(queueId, objectRef)` pair fails rather than create a second row; the
procedure's catch then surfaces the failure as an error. -/
def createOne (st : Store) (proj q obj : Nat) (ot : ObjType) (nextId : Nat)
    (now : Int) : Except CreateError (QueueItem × Store) :=
  if pairExists st proj q obj ot then Except.error CreateError.uniqueViolation
  else
    let it := mkItem nextId proj q obj ot now
    Except.ok (it, st ++ [it])

inductive DeleteError where
  | notFound
deriving DecidableEq, Repr

/-- The where clause of `delete`'s `findFirst`: (objectId, objectType,
projectId) — there is no queueId in the input at all. -/
def matchObj (proj obj : Nat) (ot : ObjType) (it : QueueItem) : Bool :=
  decide (it.projectId = proj ∧ it.objectId = obj ∧ it.objectType = ot)

/-- The single-item `delete` procedure (annotationQueueItems.ts lines 183 to
236): `findFirst` the object's first matching row anywhere in the project,
error when none (the source throws LangfuseNotFoundError; that it surfaces as
the distinct NotFound kind is modelled from the spec's error taxonomy §7,
the error class itself not being among the source files), else delete that
row by id and project. -/
def deleteItem (st : Store) (proj obj : Nat) (ot : ObjType) :
    Except DeleteError (QueueItem × Store) :=
  match st.find? (matchObj proj obj ot) with
  | none => Except.error DeleteError.notFound
  | some it =>
    Except.ok (it, st.filter (fun j => ! decide (j.id = it.id ∧ j.projectId = proj)))

/-- A never-leased pending row of the queue: such a row is eligible at every
`now`. -/
def unclaimedPred (q proj : Nat) (it : QueueItem) : Bool :=
  decide (it.queueId = q ∧ it.projectId = proj ∧ it.status = QStatus.PENDING
    ∧ it.editStartTime = none)

/-- How many never-leased pending rows the queue holds. -/
def unclaimedCount (st : Store) (q proj : Nat) : Nat :=
  (st.filter (unclaimedPred q proj)).length

/-- No two rows share an id. -/
def NoDupIds (st : Store) : Prop := (st.map QueueItem.id).Nodup

/-- No two rows share a dedup key. -/
def NoDupPairs (st : Store) : Prop := (st.map itemKey).Nodup

end AQ

namespace AQ

theorem leaseElapsed_some_iff (now t : Int) :
    leaseElapsed now (some t) = true ↔ t < now - leaseDurationMs := by
  simp [leaseElapsed]

theorem eligibleFor_eq_true (q proj : Nat) (now : Int) (it : QueueItem) :
    eligibleFor q proj now it = true ↔
      it.queueId = q ∧ it.projectId = proj ∧ it.status = QStatus.PENDING ∧
        leaseElapsed now it.editStartTime = true := by
  simp [eligibleFor, and_assoc]

theorem eligibleFor_false_of_fresh_lease (q proj : Nat) (now s : Int)
    (it : QueueItem) (h : it.editStartTime = some s)
    (hn : now ≤ s + leaseDurationMs) : eligibleFor q proj now it = false := by
  have hlt : ¬ (s < now - leaseDurationMs) := by omega
  simp [eligibleFor, leaseElapsed, h, hlt]

theorem selectMin_mem {l : List QueueItem} :
    ∀ {x : QueueItem}, selectMin l = some x → x ∈ l := by
  induction l with
  | nil => intro x h; simp [selectMin] at h
  | cons a t ih =>
    intro x h
    rw [selectMin] at h
    cases ht : selectMin t with
    | none => rw [ht] at h; simp at h; simp [h]
    | some b =>
      rw [ht] at h
      by_cases hc : b.createdAt < a.createdAt
      · simp [hc] at h
        subst h
        exact List.mem_cons_of_mem a (ih ht)
      · simp [hc] at h
        simp [h]

theorem selectMin_le {l : List QueueItem} :
    ∀ {x : QueueItem}, selectMin l = some x →
      ∀ y ∈ l, x.createdAt ≤ y.createdAt := by
  induction l with
  | nil => intro x h; simp [selectMin] at h
  | cons a t ih =>
    intro x h
    rw [selectMin] at h
    cases ht : selectMin t with
    | none =>
      rw [ht] at h; simp at h
      have htnil : t = [] := by
        cases t with
        | nil => rfl
        | cons c u =>
          rw [selectMin] at ht
          cases hu : selectMin u <;> rw [hu] at ht <;> simp at ht
          split at ht <;> simp at ht
      subst htnil
      intro y hy
      simp at hy
      subst hy
      simp [h]
    | some b =>
      rw [ht] at h
      by_cases hc : b.createdAt < a.createdAt
      · simp [hc] at h
        subst h
        intro y hy
        rcases List.mem_cons.mp hy with hya | hyt
        · subst hya; omega
        · exact ih ht y hyt
      · simp [hc] at h
        subst h
        intro y hy
        rcases List.mem_cons.mp hy with hya | hyt
        · subst hya; omega
        · have := ih ht y hyt
          omega

theorem selectMin_isSome {l : List QueueItem} (h : l ≠ []) :
    ∃ x, selectMin l = some x := by
  cases l with
  | nil => exact absurd rfl h
  | cons a t =>
    rw [selectMin]
    cases ht : selectMin t with
    | none => exact ⟨a, rfl⟩
    | some b =>
      by_cases hc : b.createdAt < a.createdAt
      · exact ⟨b, by simp [hc]⟩
      · exact ⟨a, by simp [hc]⟩

theorem claimNextRead_some {st : Store} {q proj : Nat} {now : Int}
    {x : QueueItem} (h : claimNextRead st q proj now = some x) :
    x ∈ st ∧ eligibleFor q proj now x = true ∧
      ∀ y ∈ st, eligibleFor q proj now y = true →
        x.createdAt ≤ y.createdAt := by
  have hmem := selectMin_mem h
  have hx := List.mem_filter.mp hmem
  refine ⟨hx.1, hx.2, ?_⟩
  intro y hy hel
  exact selectMin_le h y (List.mem_filter.mpr ⟨hy, hel⟩)

theorem claimNextRead_isSome {st : Store} {q proj : Nat} {now : Int}
    (h : ∃ y ∈ st, eligibleFor q proj now y = true) :
    ∃ x, claimNextRead st q proj now = some x := by
  obtain ⟨y, hy, hel⟩ := h
  apply selectMin_isSome
  intro hnil
  have : y ∈ st.filter (eligibleFor q proj now) :=
    List.mem_filter.mpr ⟨hy, hel⟩
  rw [hnil] at this
  simp at this

end AQ

namespace AQ

theorem writeClaim_map_id (st : Store) (i proj c : Nat) (now : Int) :
    (writeClaim st i proj c now).map QueueItem.id = st.map QueueItem.id := by
  unfold writeClaim
  rw [List.map_map]
  apply List.map_congr_left
  intro a _
  by_cases h : a.id = i ∧ a.projectId = proj
  · simp [Function.comp, h]
  · simp [Function.comp, h]

theorem noDupIds_writeClaim {st : Store} (h : NoDupIds st) (i proj c : Nat)
    (now : Int) : NoDupIds (writeClaim st i proj c now) := by
  unfold NoDupIds
  rw [writeClaim_map_id]
  exact h

theorem eq_of_mem_of_id {st : Store} (h : NoDupIds st) {a b : QueueItem}
    (ha : a ∈ st) (hb : b ∈ st) (hid : a.id = b.id) : a = b :=
  List.inj_on_of_nodup_map h ha hb hid

theorem mem_writeClaim_of_ne {st : Store} {a : QueueItem}
    {i proj : Nat} (c : Nat) (now : Int) (ha : a ∈ st)
    (hne : ¬ (a.id = i ∧ a.projectId = proj)) :
    a ∈ writeClaim st i proj c now := by
  unfold writeClaim
  rw [List.mem_map]
  exact ⟨a, ha, by simp [hne]⟩

theorem mem_writeClaim_self {st : Store} {a : QueueItem} {proj : Nat}
    (c : Nat) (now : Int) (ha : a ∈ st) (hp : a.projectId = proj) :
    ({ a with editStartTime := some now, editStartByUserId := some c } :
      QueueItem) ∈ writeClaim st a.id proj c now := by
  unfold writeClaim
  rw [List.mem_map]
  exact ⟨a, ha, by simp [hp]⟩

end AQ

namespace AQ

/-- C1 counterexample: a queue with a single pending, unleased item; two
concurrent `next` calls (callers 7 and 8) interleave so that both `findFirst`
reads run before either `update` write — nothing in the source prevents
this — and both callers receive the very same item, so the claimed
mutual-exclusion-by-atomicity fails. -/
theorem concurrent_claims_same_item :
    (racedClaims [mkItem 1 1 1 10 ObjType.TRACE 0] 1 1 7 8 1000).1
        = some (mkItem 1 1 1 10 ObjType.TRACE 0) ∧
    (racedClaims [mkItem 1 1 1 10 ObjType.TRACE 0] 1 1 7 8 1000).2.1
        = some (mkItem 1 1 1 10 ObjType.TRACE 0) := by
  decide

/-- C3 counterexample: an item leased at T = 0 with D = `leaseDurationMs`;
at now = 300000 we have now - T ≥ D, so the claim says the item is eligible
again, but the query's strict `lt` bound leaves it ineligible and `next`
finds no item. -/
theorem lease_boundary_at_duration_ineligible :
    (300000 : Int) - 0 ≥ leaseDurationMs ∧
    eligibleFor 1 1 300000
      { mkItem 2 1 1 11 ObjType.TRACE 0 with
        editStartTime := some 0, editStartByUserId := some 9 } = false ∧
    claimNextRead
      [{ mkItem 2 1 1 11 ObjType.TRACE 0 with
         editStartTime := some 0, editStartByUserId := some 9 }] 1 1 300000
      = none := by
  decide

/-- C3 (amended): an item of the queue with PENDING status and a null lease
is always eligible; one leased at time ts is eligible at `now` iff
now - ts > `leaseDurationMs` — the boundary now - ts = D is still
ineligible (strict `lt`), not inclusive as the claim states. -/
theorem lease_expiry_boundary_exclusive (q proj : Nat) (now ts : Int)
    (it : QueueItem) (hq : it.queueId = q) (hp : it.projectId = proj)
    (hs : it.status = QStatus.PENDING) :
    (it.editStartTime = none → eligibleFor q proj now it = true) ∧
    (it.editStartTime = some ts →
      (eligibleFor q proj now it = true ↔ now - ts > leaseDurationMs)) := by
  constructor
  · intro h
    simp [eligibleFor, leaseElapsed, hq, hp, hs, h]
  · intro h
    simp [eligibleFor, leaseElapsed, hq, hp, hs, h]
    omega

theorem lease_expiry_boundary_exclusive_witness :
    ((mkItem 1 1 1 10 ObjType.TRACE 0).editStartTime = none →
      eligibleFor 1 1 5 (mkItem 1 1 1 10 ObjType.TRACE 0) = true) ∧
    ((mkItem 1 1 1 10 ObjType.TRACE 0).editStartTime = some 0 →
      (eligibleFor 1 1 5 (mkItem 1 1 1 10 ObjType.TRACE 0) = true ↔
        (5 : Int) - 0 > leaseDurationMs)) :=
  lease_expiry_boundary_exclusive 1 1 5 0 (mkItem 1 1 1 10 ObjType.TRACE 0)
    rfl rfl rfl

/-- C4 counterexample: two eligible items share the smallest `createdAt`;
the store lists the one with the larger id first, and `next` returns that
one — the query has no id tie-break, so the claim's "smallest id on ties"
fails. -/
theorem claim_tie_not_smallest_id :
    (claimNext [mkItem 2 1 1 20 ObjType.TRACE 5, mkItem 1 1 1 21 ObjType.TRACE 5]
        1 1 7 0).1 = some (mkItem 2 1 1 20 ObjType.TRACE 5) ∧
    eligibleFor 1 1 0 (mkItem 1 1 1 21 ObjType.TRACE 5) = true ∧
    (mkItem 1 1 1 21 ObjType.TRACE 5).createdAt
        = (mkItem 2 1 1 20 ObjType.TRACE 5).createdAt ∧
    (mkItem 1 1 1 21 ObjType.TRACE 5).id
        < (mkItem 2 1 1 20 ObjType.TRACE 5).id := by
  decide

/-- C4 (amended): any item `next` returns is an eligible item of the store
whose `createdAt` is minimal among all eligible items — so with pairwise
distinct `createdAt` values the FIFO choice is determined; among items tied
at the minimal `createdAt` the query applies no id tie-break, the choice
falling to whichever row the store yields first. -/
theorem claim_selection_minimal_createdAt (st : Store) (q proj caller : Nat)
    (now : Int) (x : QueueItem)
    (h : (claimNext st q proj caller now).1 = some x) :
    x ∈ st ∧ eligibleFor q proj now x = true ∧
      ∀ y ∈ st, eligibleFor q proj now y = true →
        x.createdAt ≤ y.createdAt := by
  unfold claimNext at h
  cases hc : claimNextRead st q proj now with
  | none => rw [hc] at h; simp at h
  | some a =>
    rw [hc] at h
    simp at h
    subst h
    exact claimNextRead_some hc

theorem claim_selection_minimal_createdAt_witness :
    mkItem 1 1 1 10 ObjType.TRACE 100 ∈ [mkItem 1 1 1 10 ObjType.TRACE 100] ∧
    eligibleFor 1 1 0 (mkItem 1 1 1 10 ObjType.TRACE 100) = true ∧
    ∀ y ∈ [mkItem 1 1 1 10 ObjType.TRACE 100], eligibleFor 1 1 0 y = true →
      (mkItem 1 1 1 10 ObjType.TRACE 100).createdAt ≤ y.createdAt :=
  claim_selection_minimal_createdAt [mkItem 1 1 1 10 ObjType.TRACE 100]
    1 1 7 0 (mkItem 1 1 1 10 ObjType.TRACE 100) (by decide)

end AQ

namespace AQ

theorem matchKey_completeStamp (proj q obj : Nat) (ot : ObjType)
    (u : Nat) (now : Int) (it : QueueItem) :
    matchKey proj q obj ot (completeStamp u now it)
      = matchKey proj q obj ot it := by
  simp [matchKey, completeStamp, itemKey]

theorem completeStamp_completeStamp (u1 u2 : Nat) (t1 t2 : Int)
    (it : QueueItem) :
    completeStamp u2 t2 (completeStamp u1 t1 it) = completeStamp u2 t2 it :=
  rfl

theorem complete_repeat_count (st : Store) (proj q obj : Nat) (ot : ObjType)
    (u1 u2 : Nat) (t1 t2 : Int) :
    (complete (complete st proj q obj ot u1 t1).2 proj q obj ot u2 t2).1
      = (complete st proj q obj ot u1 t1).1 := by
  unfold complete
  induction st with
  | nil => simp
  | cons a t ih =>
    by_cases h : matchKey proj q obj ot a = true
    · simp only [List.map_cons, List.filter_cons, h, matchKey_completeStamp,
        if_true, List.length_cons]
      simpa using ih
    · have hb : matchKey proj q obj ot a = false := by
        simpa using h
      simp only [List.map_cons, List.filter_cons, hb, matchKey_completeStamp,
        Bool.false_eq_true, if_false]
      simpa using ih

theorem complete_repeat_state (st : Store) (proj q obj : Nat) (ot : ObjType)
    (u1 u2 : Nat) (t1 t2 : Int) :
    (complete (complete st proj q obj ot u1 t1).2 proj q obj ot u2 t2).2
      = (complete st proj q obj ot u2 t2).2 := by
  unfold complete
  induction st with
  | nil => simp
  | cons a t ih =>
    by_cases h : matchKey proj q obj ot a = true
    · have h2 : matchKey proj q obj ot (completeStamp u1 t1 a) = true := by
        rw [matchKey_completeStamp]; exact h
      simp only [List.map_cons, h, h2, if_pos]
      rw [completeStamp_completeStamp]
      simpa using ih
    · have hb : matchKey proj q obj ot a = false := by
        simpa using h
      simp only [List.map_cons, hb, if_neg, Bool.false_eq_true,
        not_false_eq_true]
      simpa using ih

/-- C2 (amended): a second `complete` on the same (queueId, objectRef) is not
a zero-row no-op: its `updateMany` where clause has no status condition, so
it matches the COMPLETED item again, returns the same affected-row count as
the first call, and overwrites `completedAt` and the completing user with the
second call's values — the resulting state is exactly that of a single
`complete` with the second call's stamps (last writer wins), so I2 is not
preserved. -/
theorem complete_second_call_restamps (st : Store) (proj q obj : Nat)
    (ot : ObjType) (u1 u2 : Nat) (t1 t2 : Int) :
    (complete (complete st proj q obj ot u1 t1).2 proj q obj ot u2 t2).1
        = (complete st proj q obj ot u1 t1).1 ∧
    (complete (complete st proj q obj ot u1 t1).2 proj q obj ot u2 t2).2
        = (complete st proj q obj ot u2 t2).2 :=
  ⟨complete_repeat_count st proj q obj ot u1 u2 t1 t2,
   complete_repeat_state st proj q obj ot u1 u2 t1 t2⟩

/-- C2 counterexample: one pending item, completed at t1 = 100 by user 7,
then completed again at t2 = 200 by user 8.  The second call returns an
affected-row count of 1 (the claim says 0) and the stored item now carries
the second call's `completedAt` and completing user (the claim says the
first call's stamps are untouched). -/
theorem complete_second_call_not_noop :
    (complete (complete [mkItem 1 1 1 10 ObjType.TRACE 0]
        1 1 10 ObjType.TRACE 7 100).2 1 1 10 ObjType.TRACE 8 200).1 = 1 ∧
    ((complete (complete [mkItem 1 1 1 10 ObjType.TRACE 0]
        1 1 10 ObjType.TRACE 7 100).2 1 1 10 ObjType.TRACE 8 200).2.map
          QueueItem.completedAt) = [some 200] ∧
    ((complete (complete [mkItem 1 1 1 10 ObjType.TRACE 0]
        1 1 10 ObjType.TRACE 7 100).2 1 1 10 ObjType.TRACE 8 200).2.map
          QueueItem.annotatorUserId) = [some 8] ∧
    ((complete [mkItem 1 1 1 10 ObjType.TRACE 0]
        1 1 10 ObjType.TRACE 7 100).2.map QueueItem.completedAt)
      = [some 100] ∧
    ((complete [mkItem 1 1 1 10 ObjType.TRACE 0]
        1 1 10 ObjType.TRACE 7 100).2.map QueueItem.annotatorUserId)
      = [some 7] := by
  decide

end AQ

namespace AQ

/-- C8: totality on no match.  When no item of the store is eligible for the
queue, `next` returns null (the source's `if (!item) return null`) with the
store untouched, as a normal result of the total function, and a `complete`
whose key matches no item succeeds with an affected-row count of zero and an
unchanged store. -/
theorem no_match_empty_result (st : Store) (q proj caller : Nat) (now : Int)
    (proj2 q2 obj : Nat) (ot : ObjType) (u : Nat) (t2 : Int)
    (h1 : ∀ it ∈ st, eligibleFor q proj now it = false)
    (h2 : ∀ it ∈ st, matchKey proj2 q2 obj ot it = false) :
    claimNext st q proj caller now = (none, st) ∧
      complete st proj2 q2 obj ot u t2 = (0, st) := by
  constructor
  · have hf : st.filter (eligibleFor q proj now) = [] := by
      rw [List.filter_eq_nil_iff]
      intro a ha
      simp [h1 a ha]
    unfold claimNext claimNextRead
    rw [hf]
    rfl
  · unfold complete
    have hf : st.filter (matchKey proj2 q2 obj ot) = [] := by
      rw [List.filter_eq_nil_iff]
      intro a ha
      simp [h2 a ha]
    rw [hf]
    have hm : st.map (fun it =>
        if matchKey proj2 q2 obj ot it then completeStamp u t2 it else it)
          = st.map id := by
      apply List.map_congr_left
      intro a ha
      simp [h2 a ha]
    rw [hm, List.map_id]
    rfl

theorem no_match_empty_result_witness :
    claimNext [completeStamp 7 50 (mkItem 1 1 1 10 ObjType.TRACE 0)]
        1 1 9 1000 = (none, [completeStamp 7 50 (mkItem 1 1 1 10 ObjType.TRACE 0)]) ∧
      complete [completeStamp 7 50 (mkItem 1 1 1 10 ObjType.TRACE 0)]
        1 1 99 ObjType.TRACE 9 2000
        = (0, [completeStamp 7 50 (mkItem 1 1 1 10 ObjType.TRACE 0)]) :=
  no_match_empty_result [completeStamp 7 50 (mkItem 1 1 1 10 ObjType.TRACE 0)]
    1 1 9 1000 1 1 99 ObjType.TRACE 9 2000 (by decide) (by decide)

end AQ

namespace AQ

theorem pairExists_append (st1 st2 : Store) (proj q obj : Nat)
    (ot : ObjType) :
    pairExists (st1 ++ st2) proj q obj ot
      = (pairExists st1 proj q obj ot || pairExists st2 proj q obj ot) := by
  simp [pairExists]

theorem pairExists_eq_true_iff (st : Store) (proj q obj : Nat)
    (ot : ObjType) :
    pairExists st proj q obj ot = true ↔
      (proj, q, obj, ot) ∈ st.map itemKey := by
  simp only [pairExists, List.any_eq_true, matchKey, decide_eq_true_eq,
    List.mem_map]

theorem itemKey_mkItem (id proj q obj : Nat) (ot : ObjType) (now : Int) :
    itemKey (mkItem id proj q obj ot now) = (proj, q, obj, ot) :=
  rfl

theorem nodupPairs_concat {st : Store} {it : QueueItem} (hnd : NoDupPairs st)
    (hnew : itemKey it ∉ st.map itemKey) : NoDupPairs (st ++ [it]) := by
  unfold NoDupPairs at hnd ⊢
  rw [List.map_append, List.nodup_append]
  refine ⟨hnd, List.nodup_singleton _, ?_⟩
  intro x hx hx2
  simp at hx2
  subst hx2
  exact hnew hx

theorem insertSkipDup_shape (proj q : Nat) (ot : ObjType) (now : Int) :
    ∀ (objs : List Nat) (st : Store) (nid : Nat),
      ∃ l : List QueueItem,
        insertSkipDup st proj q ot nid now objs = (l.length, st ++ l) ∧
        List.Sublist (l.map QueueItem.objectId) objs := by
  intro objs
  induction objs with
  | nil =>
    intro st nid
    exact ⟨[], by simp [insertSkipDup], by simp⟩
  | cons obj rest ih =>
    intro st nid
    rw [insertSkipDup]
    by_cases h : pairExists st proj q obj ot = true
    · rw [if_pos h]
      obtain ⟨l, h1, h2⟩ := ih st nid
      exact ⟨l, h1, h2.cons obj⟩
    · rw [if_neg h]
      obtain ⟨l, h1, h2⟩ := ih (st ++ [mkItem nid proj q obj ot now]) (nid + 1)
      refine ⟨mkItem nid proj q obj ot now :: l, ?_, ?_⟩
      · simp only [h1, List.length_cons, List.append_assoc, List.singleton_append,
          List.cons_append, List.nil_append]
      · rw [List.map_cons]
        exact List.Sublist.cons₂ obj h2
end AQ

namespace AQ

theorem insertSkipDup_all_exist (proj q : Nat) (ot : ObjType) (now : Int) :
    ∀ (objs : List Nat) (st : Store) (nid : Nat), ∀ obj ∈ objs,
      pairExists (insertSkipDup st proj q ot nid now objs).2 proj q obj ot
        = true := by
  intro objs
  induction objs with
  | nil =>
    intro st nid obj hobj
    simp at hobj
  | cons o rest ih =>
    intro st nid obj hobj
    rw [insertSkipDup]
    rcases List.mem_cons.mp hobj with rfl | hmem
    · by_cases h : pairExists st proj q obj ot = true
      · rw [if_pos h]
        obtain ⟨l, h1, _⟩ := insertSkipDup_shape proj q ot now rest st nid
        rw [h1]
        simp [pairExists_append, h]
      · rw [if_neg h]
        obtain ⟨l, h1, _⟩ := insertSkipDup_shape proj q ot now rest
          (st ++ [mkItem nid proj q obj ot now]) (nid + 1)
        simp only [h1]
        rw [List.append_assoc, pairExists_append]
        have hm : pairExists ([mkItem nid proj q obj ot now] ++ l)
            proj q obj ot = true := by
          rw [pairExists_append]
          have hone : pairExists [mkItem nid proj q obj ot now] proj q obj ot
              = true := by
            simp [pairExists, matchKey, itemKey_mkItem]
          rw [hone]
          rfl
        rw [hm]
        simp
    · by_cases h : pairExists st proj q o ot = true
      · rw [if_pos h]
        exact ih st nid obj hmem
      · rw [if_neg h]
        exact ih (st ++ [mkItem nid proj q o ot now]) (nid + 1) obj hmem

theorem insertSkipDup_count_zero (proj q : Nat) (ot : ObjType) (now : Int) :
    ∀ (objs : List Nat) (st : Store) (nid : Nat),
      (∀ obj ∈ objs, pairExists st proj q obj ot = true) →
      insertSkipDup st proj q ot nid now objs = (0, st) := by
  intro objs
  induction objs with
  | nil =>
    intro st nid _
    rfl
  | cons o rest ih =>
    intro st nid hall
    rw [insertSkipDup]
    rw [if_pos (hall o (List.mem_cons_self o rest))]
    exact ih st nid (fun obj hobj => hall obj (List.mem_cons_of_mem o hobj))

theorem insertSkipDup_nodupPairs (proj q : Nat) (ot : ObjType) (now : Int) :
    ∀ (objs : List Nat) (st : Store) (nid : Nat), NoDupPairs st →
      NoDupPairs (insertSkipDup st proj q ot nid now objs).2 := by
  intro objs
  induction objs with
  | nil =>
    intro st nid h
    exact h
  | cons o rest ih =>
    intro st nid h
    rw [insertSkipDup]
    by_cases hex : pairExists st proj q o ot = true
    · rw [if_pos hex]
      exact ih st nid h
    · rw [if_neg hex]
      have hf : pairExists st proj q o ot = false := by
        simpa using hex
      have hnew : itemKey (mkItem nid proj q o ot now) ∉ st.map itemKey := by
        rw [itemKey_mkItem]
        intro hmem
        rw [← pairExists_eq_true_iff] at hmem
        rw [hf] at hmem
        cases hmem
      exact ih (st ++ [mkItem nid proj q o ot now]) (nid + 1)
        (nodupPairs_concat h hnew)

theorem filter_matchKey_len_one :
    ∀ {st : Store} (proj q obj : Nat) (ot : ObjType), NoDupPairs st →
      pairExists st proj q obj ot = true →
      (st.filter (matchKey proj q obj ot)).length = 1 := by
  intro st
  induction st with
  | nil =>
    intro proj q obj ot _ hex
    simp [pairExists] at hex
  | cons a t ih =>
    intro proj q obj ot hnd hex
    have hnd2 : itemKey a ∉ t.map itemKey ∧ NoDupPairs t := by
      unfold NoDupPairs at hnd
      rw [List.map_cons, List.nodup_cons] at hnd
      exact hnd
    by_cases h : matchKey proj q obj ot a = true
    · rw [List.filter_cons, if_pos h]
      have hk : itemKey a = (proj, q, obj, ot) := by
        simpa [matchKey] using h
      have hnil : t.filter (matchKey proj q obj ot) = [] := by
        rw [List.filter_eq_nil_iff]
        intro x hx hmx
        have hkx : itemKey x = (proj, q, obj, ot) := by
          simpa [matchKey] using hmx
        exact hnd2.1 (hk ▸ hkx ▸ List.mem_map_of_mem itemKey hx)
      rw [hnil]
      rfl
    · rw [List.filter_cons, if_neg h]
      have hb : matchKey proj q obj ot a = false := by simpa using h
      have hex2 : pairExists t proj q obj ot = true := by
        unfold pairExists at hex
        rw [List.any_cons] at hex
        unfold pairExists
        simpa [hb] using hex
      exact ih proj q obj ot hnd2.2 hex2

end AQ

namespace AQ

theorem createMany_eq (st : Store) (proj q : Nat) (objectIds : List Nat)
    (ot : ObjType) (nid : Nat) (now : Int) :
    createMany st proj q objectIds ot nid now
      = (((insertSkipDup st proj q ot nid now (objectIds.take MAX_ITEMS)).1,
          objectIds.length, min objectIds.length MAX_ITEMS),
         (insertSkipDup st proj q ot nid now (objectIds.take MAX_ITEMS)).2) :=
  rfl

/-- C5: bulk enrollment is idempotent with respect to queue membership.
Starting from any duplicate-free store, running `createMany` twice with the
same refs (within the batch cap) leaves the second call with an inserted-row
count of 0 and an unchanged store, and the store holds exactly one item per
enrolled (queueId, objectRef) pair. -/
theorem createMany_idempotent (st : Store) (proj q : Nat) (refs : List Nat)
    (ot : ObjType) (n1 n2 : Nat) (t1 t2 : Int)
    (hlen : refs.length ≤ MAX_ITEMS) (hnd : NoDupPairs st) :
    (createMany (createMany st proj q refs ot n1 t1).2
        proj q refs ot n2 t2).1.1 = 0 ∧
    (createMany (createMany st proj q refs ot n1 t1).2
        proj q refs ot n2 t2).2 = (createMany st proj q refs ot n1 t1).2 ∧
    NoDupPairs (createMany st proj q refs ot n1 t1).2 ∧
    ∀ obj ∈ refs,
      ((createMany st proj q refs ot n1 t1).2.filter
        (matchKey proj q obj ot)).length = 1 := by
  have htake : refs.take MAX_ITEMS = refs := List.take_of_length_le hlen
  simp only [createMany_eq, htake]
  have hall : ∀ obj ∈ refs,
      pairExists (insertSkipDup st proj q ot n1 t1 refs).2 proj q obj ot
        = true :=
    fun obj hobj => insertSkipDup_all_exist proj q ot t1 refs st n1 obj hobj
  have hzero := insertSkipDup_count_zero proj q ot t2 refs
    (insertSkipDup st proj q ot n1 t1 refs).2 n2 hall
  have hnd2 := insertSkipDup_nodupPairs proj q ot t1 refs st n1 hnd
  refine ⟨?_, ?_, hnd2, ?_⟩
  · rw [hzero]
  · rw [hzero]
  · intro obj hobj
    exact filter_matchKey_len_one proj q obj ot hnd2 (hall obj hobj)

theorem createMany_idempotent_witness :
    (createMany (createMany [] 1 1 [10, 11, 12] ObjType.TRACE 100 5).2
        1 1 [10, 11, 12] ObjType.TRACE 200 6).1.1 = 0 ∧
    (createMany (createMany [] 1 1 [10, 11, 12] ObjType.TRACE 100 5).2
        1 1 [10, 11, 12] ObjType.TRACE 200 6).2
      = (createMany [] 1 1 [10, 11, 12] ObjType.TRACE 100 5).2 ∧
    NoDupPairs (createMany [] 1 1 [10, 11, 12] ObjType.TRACE 100 5).2 ∧
    ∀ obj ∈ [10, 11, 12],
      ((createMany [] 1 1 [10, 11, 12] ObjType.TRACE 100 5).2.filter
        (matchKey 1 1 obj ObjType.TRACE)).length = 1 :=
  createMany_idempotent [] 1 1 [10, 11, 12] ObjType.TRACE 100 200 5 6
    (by decide) (by unfold NoDupPairs; decide)

/-- C6: the batch cap.  `createMany` truncates the input to its first
`MAX_ITEMS` = 500 entries (the store grows by a block of rows whose object
ids form an order-preserving subsequence of `refs.take MAX_ITEMS`; entries
beyond the cap are silently dropped), inserts at most `MAX_ITEMS` rows, and
reports the full input length as `totalRequested` next to the attempted
count `min refs.length MAX_ITEMS`. -/
theorem createMany_batch_cap (st : Store) (proj q : Nat) (refs : List Nat)
    (ot : ObjType) (nid : Nat) (now : Int) :
    (createMany st proj q refs ot nid now).1.2.1 = refs.length ∧
    (createMany st proj q refs ot nid now).1.2.2
        = min refs.length MAX_ITEMS ∧
    (createMany st proj q refs ot nid now).1.1 ≤ MAX_ITEMS ∧
    ∃ l : List QueueItem,
      (createMany st proj q refs ot nid now).2 = st ++ l ∧
      (createMany st proj q refs ot nid now).1.1 = l.length ∧
      List.Sublist (l.map QueueItem.objectId) (refs.take MAX_ITEMS) := by
  obtain ⟨l, h1, h2⟩ :=
    insertSkipDup_shape proj q ot now (refs.take MAX_ITEMS) st nid
  have hlen : l.length ≤ MAX_ITEMS := by
    calc l.length = (l.map QueueItem.objectId).length := by
          rw [List.length_map]
      _ ≤ (refs.take MAX_ITEMS).length := h2.length_le
      _ ≤ MAX_ITEMS := by
          rw [List.length_take]
          omega
  refine ⟨rfl, rfl, ?_, ⟨l, ?_, ?_, h2⟩⟩
  · show (insertSkipDup st proj q ot nid now (refs.take MAX_ITEMS)).1
      ≤ MAX_ITEMS
    rw [h1]
    exact hlen
  · show (insertSkipDup st proj q ot nid now (refs.take MAX_ITEMS)).2
      = st ++ l
    rw [h1]
  · show (insertSkipDup st proj q ot nid now (refs.take MAX_ITEMS)).1
      = l.length
    rw [h1]

/-- C7: no enrollment path ever creates a second item for a (queueId,
objectRef) pair while one is present: on a duplicate-free store, single-item
`create` fails on an existing pair (the store insert rejects it) instead of
inserting, a successful `create` leaves the store duplicate-free, and
`createMany` (which skips duplicates) also leaves it duplicate-free. -/
theorem enrollment_never_duplicates (st : Store) (proj q obj : Nat)
    (ot : ObjType) (nid : Nat) (now : Int) (refs : List Nat) (nid2 : Nat)
    (now2 : Int) (hnd : NoDupPairs st) :
    (pairExists st proj q obj ot = true →
      createOne st proj q obj ot nid now
        = Except.error CreateError.uniqueViolation) ∧
    (∀ x st2, createOne st proj q obj ot nid now = Except.ok (x, st2) →
      NoDupPairs st2) ∧
    NoDupPairs (createMany st proj q refs ot nid2 now2).2 := by
  refine ⟨?_, ?_, ?_⟩
  · intro h
    unfold createOne
    rw [if_pos h]
  · intro x st2 hok
    unfold createOne at hok
    by_cases h : pairExists st proj q obj ot = true
    · rw [if_pos h] at hok
      simp at hok
    · rw [if_neg h] at hok
      simp only [Except.ok.injEq, Prod.mk.injEq] at hok
      obtain ⟨hx, hst⟩ := hok
      have hf : pairExists st proj q obj ot = false := by simpa using h
      have hnew : itemKey (mkItem nid proj q obj ot now) ∉ st.map itemKey := by
        rw [itemKey_mkItem]
        intro hmem
        rw [← pairExists_eq_true_iff] at hmem
        rw [hf] at hmem
        cases hmem
      rw [← hst]
      exact nodupPairs_concat hnd hnew
  · exact insertSkipDup_nodupPairs proj q ot now2 (refs.take MAX_ITEMS)
      st nid2 hnd

theorem enrollment_never_duplicates_witness :
    (pairExists [mkItem 1 1 1 10 ObjType.TRACE 0] 1 1 10 ObjType.TRACE
        = true →
      createOne [mkItem 1 1 1 10 ObjType.TRACE 0] 1 1 10 ObjType.TRACE 2 50
        = Except.error CreateError.uniqueViolation) ∧
    (∀ x st2, createOne [mkItem 1 1 1 10 ObjType.TRACE 0] 1 1 10
        ObjType.TRACE 2 50 = Except.ok (x, st2) → NoDupPairs st2) ∧
    NoDupPairs (createMany [mkItem 1 1 1 10 ObjType.TRACE 0] 1 1 [10, 11]
      ObjType.TRACE 3 60).2 :=
  enrollment_never_duplicates [mkItem 1 1 1 10 ObjType.TRACE 0] 1 1 10
    ObjType.TRACE 2 50 [10, 11] 3 60 (by unfold NoDupPairs; decide)

end AQ

namespace AQ

/-- C9: the frame of the claim write.  When `next` selects item x, the
returned record is PENDING, the store keeps its length, every row whose id
differs from x.id is untouched, and the row with x.id changes exactly its
two lease fields to (now, caller) — status (still PENDING), ids, object
reference, completion stamps and `createdAt` are all unchanged. -/
theorem claim_write_frame (st : Store) (q proj caller : Nat) (now : Int)
    (x : QueueItem) (st2 : Store) (hnd : NoDupIds st)
    (h : claimNext st q proj caller now = (some x, st2)) :
    x.status = QStatus.PENDING ∧ st2.length = st.length ∧
    ∀ i (hi : i < st.length) (hi2 : i < st2.length),
      (st[i].id ≠ x.id → st2[i] = st[i]) ∧
      (st[i].id = x.id →
        st2[i].editStartTime = some now ∧
        st2[i].editStartByUserId = some caller ∧
        st2[i].status = QStatus.PENDING ∧
        st2[i].id = st[i].id ∧ st2[i].projectId = st[i].projectId ∧
        st2[i].queueId = st[i].queueId ∧ st2[i].objectId = st[i].objectId ∧
        st2[i].objectType = st[i].objectType ∧
        st2[i].completedAt = st[i].completedAt ∧
        st2[i].annotatorUserId = st[i].annotatorUserId ∧
        st2[i].createdAt = st[i].createdAt) := by
  unfold claimNext at h
  cases hr : claimNextRead st q proj now with
  | none =>
    rw [hr] at h
    simp at h
  | some a =>
    rw [hr] at h
    simp only [Prod.mk.injEq, Option.some.injEq] at h
    obtain ⟨hax, hst2⟩ := h
    subst hax
    obtain ⟨hxmem, hxel, -⟩ := claimNextRead_some hr
    rw [eligibleFor_eq_true] at hxel
    obtain ⟨hxq, hxp, hxs, -⟩ := hxel
    subst hst2
    refine ⟨hxs, ?_, ?_⟩
    · unfold writeClaim
      rw [List.length_map]
    · intro i hi hi2
      have hget : (writeClaim st a.id proj caller now)[i] =
          (if st[i].id = a.id ∧ st[i].projectId = proj then
            { st[i] with
              editStartTime := some now, editStartByUserId := some caller }
          else st[i]) := by
        unfold writeClaim
        simp [List.getElem_map]
      constructor
      · intro hne
        have hcond : ¬ (st[i].id = a.id ∧ st[i].projectId = proj) :=
          fun hc => hne hc.1
        rw [hget, if_neg hcond]
      · intro heq
        have hia : st[i] = a :=
          eq_of_mem_of_id hnd (List.getElem_mem hi) hxmem heq
        have hpr : st[i].projectId = proj := by
          rw [hia]
          exact hxp
        rw [hget, if_pos ⟨heq, hpr⟩]
        simp [hia, hxs]

theorem claim_write_frame_witness :
    (mkItem 1 1 1 10 ObjType.TRACE 0).status = QStatus.PENDING ∧
    ([{ mkItem 1 1 1 10 ObjType.TRACE 0 with
        editStartTime := some 50, editStartByUserId := some 7 }] :
          Store).length = ([mkItem 1 1 1 10 ObjType.TRACE 0] : Store).length ∧
    ∀ i (hi : i < ([mkItem 1 1 1 10 ObjType.TRACE 0] : Store).length)
      (hi2 : i < ([{ mkItem 1 1 1 10 ObjType.TRACE 0 with
        editStartTime := some 50, editStartByUserId := some 7 }] :
          Store).length),
      ((([mkItem 1 1 1 10 ObjType.TRACE 0] : Store)[i]).id
          ≠ (mkItem 1 1 1 10 ObjType.TRACE 0).id →
        (([{ mkItem 1 1 1 10 ObjType.TRACE 0 with
          editStartTime := some 50, editStartByUserId := some 7 }] :
            Store)[i]) = (([mkItem 1 1 1 10 ObjType.TRACE 0] : Store)[i])) ∧
      ((([mkItem 1 1 1 10 ObjType.TRACE 0] : Store)[i]).id
          = (mkItem 1 1 1 10 ObjType.TRACE 0).id →
        (([{ mkItem 1 1 1 10 ObjType.TRACE 0 with
          editStartTime := some 50, editStartByUserId := some 7 }] :
            Store)[i]).editStartTime = some 50 ∧
        (([{ mkItem 1 1 1 10 ObjType.TRACE 0 with
          editStartTime := some 50, editStartByUserId := some 7 }] :
            Store)[i]).editStartByUserId = some 7 ∧
        (([{ mkItem 1 1 1 10 ObjType.TRACE 0 with
          editStartTime := some 50, editStartByUserId := some 7 }] :
            Store)[i]).status = QStatus.PENDING ∧
        (([{ mkItem 1 1 1 10 ObjType.TRACE 0 with
          editStartTime := some 50, editStartByUserId := some 7 }] :
            Store)[i]).id
          = (([mkItem 1 1 1 10 ObjType.TRACE 0] : Store)[i]).id ∧
        (([{ mkItem 1 1 1 10 ObjType.TRACE 0 with
          editStartTime := some 50, editStartByUserId := some 7 }] :
            Store)[i]).projectId
          = (([mkItem 1 1 1 10 ObjType.TRACE 0] : Store)[i]).projectId ∧
        (([{ mkItem 1 1 1 10 ObjType.TRACE 0 with
          editStartTime := some 50, editStartByUserId := some 7 }] :
            Store)[i]).queueId
          = (([mkItem 1 1 1 10 ObjType.TRACE 0] : Store)[i]).queueId ∧
        (([{ mkItem 1 1 1 10 ObjType.TRACE 0 with
          editStartTime := some 50, editStartByUserId := some 7 }] :
            Store)[i]).objectId
          = (([mkItem 1 1 1 10 ObjType.TRACE 0] : Store)[i]).objectId ∧
        (([{ mkItem 1 1 1 10 ObjType.TRACE 0 with
          editStartTime := some 50, editStartByUserId := some 7 }] :
            Store)[i]).objectType
          = (([mkItem 1 1 1 10 ObjType.TRACE 0] : Store)[i]).objectType ∧
        (([{ mkItem 1 1 1 10 ObjType.TRACE 0 with
          editStartTime := some 50, editStartByUserId := some 7 }] :
            Store)[i]).completedAt
          = (([mkItem 1 1 1 10 ObjType.TRACE 0] : Store)[i]).completedAt ∧
        (([{ mkItem 1 1 1 10 ObjType.TRACE 0 with
          editStartTime := some 50, editStartByUserId := some 7 }] :
            Store)[i]).annotatorUserId
          = (([mkItem 1 1 1 10 ObjType.TRACE 0] : Store)[i]).annotatorUserId ∧
        (([{ mkItem 1 1 1 10 ObjType.TRACE 0 with
          editStartTime := some 50, editStartByUserId := some 7 }] :
            Store)[i]).createdAt
          = (([mkItem 1 1 1 10 ObjType.TRACE 0] : Store)[i]).createdAt) :=
  claim_write_frame [mkItem 1 1 1 10 ObjType.TRACE 0] 1 1 7 50
    (mkItem 1 1 1 10 ObjType.TRACE 0)
    [{ mkItem 1 1 1 10 ObjType.TRACE 0 with
       editStartTime := some 50, editStartByUserId := some 7 }]
    (by unfold NoDupIds; decide) (by decide)

end AQ

namespace AQ

theorem find?_first {p : QueueItem → Bool} :
    ∀ {l : List QueueItem} {a : QueueItem}, l.find? p = some a →
      ∃ l1 l2, l = l1 ++ a :: l2 ∧ ∀ b ∈ l1, p b = false := by
  intro l
  induction l with
  | nil =>
    intro a h
    simp at h
  | cons x t ih =>
    intro a h
    by_cases hp : p x = true
    · rw [List.find?_cons_of_pos _ hp] at h
      simp at h
      subst h
      exact ⟨[], t, by simp, by simp⟩
    · have hpf : p x = false := by simpa using hp
      rw [List.find?_cons_of_neg _ hp] at h
      obtain ⟨l1, l2, heq, hall⟩ := ih h
      refine ⟨x :: l1, l2, by rw [heq]; rfl, ?_⟩
      intro b hb
      rcases List.mem_cons.mp hb with rfl | hbl
      · exact hpf
      · exact hall b hbl

/-- C10: single-item deletion is keyed on (projectId, objectId, objectType)
only — its input and where clause carry no queueId.  It fails with NotFound
exactly when no item for that object exists anywhere in the project, and on
success it removes the first matching item in store order, whatever queue
that item belongs to. -/
theorem delete_queue_unscoped (st : Store) (proj obj : Nat) (ot : ObjType) :
    (deleteItem st proj obj ot = Except.error DeleteError.notFound ↔
      ∀ it ∈ st, matchObj proj obj ot it = false) ∧
    ∀ x st2, deleteItem st proj obj ot = Except.ok (x, st2) →
      matchObj proj obj ot x = true ∧
      ∃ l1 l2, st = l1 ++ x :: l2 ∧
        ∀ b ∈ l1, matchObj proj obj ot b = false := by
  constructor
  · unfold deleteItem
    cases hf : st.find? (matchObj proj obj ot) with
    | none =>
      rw [List.find?_eq_none] at hf
      constructor
      · intro _ it hit
        simpa using hf it hit
      · intro _
        rfl
    | some a =>
      constructor
      · intro h
        simp at h
      · intro hall
        have hpa := List.find?_some hf
        have hmem := List.mem_of_find?_eq_some hf
        rw [hall a hmem] at hpa
        cases hpa
  · intro x st2 hok
    unfold deleteItem at hok
    cases hf : st.find? (matchObj proj obj ot) with
    | none =>
      rw [hf] at hok
      simp at hok
    | some a =>
      rw [hf] at hok
      simp only [Except.ok.injEq, Prod.mk.injEq] at hok
      obtain ⟨hxa, -⟩ := hok
      subst hxa
      exact ⟨List.find?_some hf, find?_first hf⟩

theorem delete_queue_unscoped_witness :
    matchObj 1 10 ObjType.TRACE (mkItem 1 1 5 10 ObjType.TRACE 0) = true ∧
    ∃ l1 l2, ([mkItem 1 1 5 10 ObjType.TRACE 0,
        mkItem 2 1 6 10 ObjType.TRACE 1] : Store)
      = l1 ++ mkItem 1 1 5 10 ObjType.TRACE 0 :: l2 ∧
      ∀ b ∈ l1, matchObj 1 10 ObjType.TRACE b = false :=
  (delete_queue_unscoped [mkItem 1 1 5 10 ObjType.TRACE 0,
      mkItem 2 1 6 10 ObjType.TRACE 1] 1 10 ObjType.TRACE).2
    (mkItem 1 1 5 10 ObjType.TRACE 0)
    [mkItem 2 1 6 10 ObjType.TRACE 1] rfl

end AQ

namespace AQ

theorem runClaims_nil (st : Store) (q proj : Nat) :
    runClaims st q proj [] = ([], st) :=
  rfl

theorem runClaims_cons (st : Store) (q proj : Nat) (c : Nat × Int)
    (cs : List (Nat × Int)) :
    runClaims st q proj (c :: cs)
      = ((claimNext st q proj c.1 c.2).1 ::
          (runClaims (claimNext st q proj c.1 c.2).2 q proj cs).1,
         (runClaims (claimNext st q proj c.1 c.2).2 q proj cs).2) :=
  rfl

theorem claimNext_eq_none {st : Store} {q proj caller : Nat} {now : Int}
    (h : claimNextRead st q proj now = none) :
    claimNext st q proj caller now = (none, st) := by
  unfold claimNext
  rw [h]

theorem claimNext_eq_some {st : Store} {q proj caller : Nat} {now : Int}
    {x : QueueItem} (h : claimNextRead st q proj now = some x) :
    claimNext st q proj caller now
      = (some x, writeClaim st x.id proj caller now) := by
  unfold claimNext
  rw [h]

theorem unclaimed_eligible {q proj : Nat} {it : QueueItem} (now : Int)
    (h : unclaimedPred q proj it = true) :
    eligibleFor q proj now it = true := by
  simp only [unclaimedPred, decide_eq_true_eq] at h
  obtain ⟨h1, h2, h3, h4⟩ := h
  simp [eligibleFor, leaseElapsed, h1, h2, h3, h4]

theorem writeClaim_eq_of_no_match {st : Store} {i proj : Nat} (caller : Nat)
    (now : Int) (h : ∀ it ∈ st, it.id ≠ i) :
    writeClaim st i proj caller now = st := by
  unfold writeClaim
  conv_rhs => rw [← List.map_id st]
  apply List.map_congr_left
  intro a ha
  simp [h a ha]

theorem unclaimedCount_cons (a : QueueItem) (t : Store) (q proj : Nat) :
    unclaimedCount (a :: t) q proj =
      (if unclaimedPred q proj a = true then 1 else 0)
        + unclaimedCount t q proj := by
  unfold unclaimedCount
  rw [List.filter_cons]
  by_cases h : unclaimedPred q proj a = true
  · simp [h, Nat.add_comm]
  · simp [h]

theorem unclaimedCount_writeClaim (q proj i caller : Nat) (now : Int) :
    ∀ {st : Store}, NoDupIds st →
      unclaimedCount st q proj
        ≤ unclaimedCount (writeClaim st i proj caller now) q proj + 1 := by
  intro st
  induction st with
  | nil =>
    intro _
    simp [unclaimedCount, writeClaim]
  | cons a t ih =>
    intro hnd
    have hnd2 : a.id ∉ t.map QueueItem.id ∧ NoDupIds t := by
      unfold NoDupIds at hnd
      rw [List.map_cons, List.nodup_cons] at hnd
      exact hnd
    have hwc : writeClaim (a :: t) i proj caller now
        = (if a.id = i ∧ a.projectId = proj then
            { a with
              editStartTime := some now, editStartByUserId := some caller }
          else a) :: writeClaim t i proj caller now := by
      unfold writeClaim
      rw [List.map_cons]
    rw [hwc, unclaimedCount_cons, unclaimedCount_cons]
    by_cases hc : a.id = i ∧ a.projectId = proj
    · rw [if_pos hc]
      have hwt : writeClaim t i proj caller now = t := by
        apply writeClaim_eq_of_no_match
        intro b hb hbi
        have hba : b.id = a.id := by rw [hbi, hc.1]
        exact hnd2.1 (hba ▸ List.mem_map_of_mem QueueItem.id hb)
      rw [hwt]
      have hup : unclaimedPred q proj
          ({ a with
             editStartTime := some now, editStartByUserId := some caller } :
               QueueItem) = false := by
        simp [unclaimedPred]
      rw [hup]
      by_cases h2 : unclaimedPred q proj a = true <;> simp [h2] <;> omega
    · rw [if_neg hc]
      have h3 := ih hnd2.2
      by_cases h2 : unclaimedPred q proj a = true <;> simp [h2] <;> omega

theorem runClaims_all_some (q proj : Nat) :
    ∀ (cs : List (Nat × Int)) (st : Store), NoDupIds st →
      cs.length ≤ unclaimedCount st q proj →
      ∀ r ∈ (runClaims st q proj cs).1, r.isSome = true := by
  intro cs
  induction cs with
  | nil =>
    intro st _ _ r hr
    simp [runClaims_nil] at hr
  | cons c cs ih =>
    intro st hnd hlen r hr
    have hpos : 0 < unclaimedCount st q proj := by
      have : 0 < (c :: cs).length := by simp
      omega
    have hex : ∃ y ∈ st, eligibleFor q proj c.2 y = true := by
      unfold unclaimedCount at hpos
      rw [List.length_pos] at hpos
      obtain ⟨y, hy⟩ := List.exists_mem_of_ne_nil _ hpos
      have hy2 := List.mem_filter.mp hy
      exact ⟨y, hy2.1, unclaimed_eligible c.2 hy2.2⟩
    obtain ⟨x, hx⟩ := claimNextRead_isSome hex
    rw [runClaims_cons, claimNext_eq_some hx] at hr
    simp only [List.mem_cons] at hr
    rcases hr with rfl | hr2
    · rfl
    · have hnd2 := noDupIds_writeClaim hnd x.id proj c.1 c.2
      have hcap2 : cs.length
          ≤ unclaimedCount (writeClaim st x.id proj c.1 c.2) q proj := by
        have hle := unclaimedCount_writeClaim q proj x.id c.1 c.2 hnd
        have : (c :: cs).length = cs.length + 1 := by simp
        omega
      exact ih (writeClaim st x.id proj c.1 c.2) hnd2 hcap2 r hr2

end AQ

namespace AQ

theorem leased_not_returned (q proj : Nat) :
    ∀ (cs : List (Nat × Int)) (st : Store) (it0 : QueueItem) (s : Int),
      NoDupIds st → it0 ∈ st → it0.editStartTime = some s →
      (∀ c ∈ cs, c.2 ≤ s + leaseDurationMs) →
      ∀ r ∈ (runClaims st q proj cs).1, ∀ y, r = some y → y.id ≠ it0.id := by
  intro cs
  induction cs with
  | nil =>
    intro st it0 s _ _ _ _ r hr
    simp [runClaims_nil] at hr
  | cons c cs ih =>
    intro st it0 s hnd hmem hlease htimes r hr
    cases hread : claimNextRead st q proj c.2 with
    | none =>
      rw [runClaims_cons, claimNext_eq_none hread] at hr
      simp only [List.mem_cons] at hr
      rcases hr with rfl | hr2
      · intro y hy
        simp at hy
      · exact ih st it0 s hnd hmem hlease
          (fun d hd => htimes d (List.mem_cons_of_mem c hd)) r hr2
    | some x =>
      rw [runClaims_cons, claimNext_eq_some hread] at hr
      simp only [List.mem_cons] at hr
      obtain ⟨hxmem, hxel, -⟩ := claimNextRead_some hread
      have hne : x.id ≠ it0.id := by
        intro hid
        have hxit : x = it0 := eq_of_mem_of_id hnd hxmem hmem hid
        have hf := eligibleFor_false_of_fresh_lease q proj c.2 s x
          (hxit ▸ hlease) (htimes c (List.mem_cons_self c cs))
        rw [hxel] at hf
        cases hf
      rcases hr with rfl | hr2
      · intro y hy
        have hyx : x = y := Option.some.inj hy
        rw [← hyx]
        exact hne
      · have hne2 : ¬ (it0.id = x.id ∧ it0.projectId = proj) :=
          fun hcc => hne (hcc.1.symm)
        have hmem2 : it0 ∈ writeClaim st x.id proj c.1 c.2 :=
          mem_writeClaim_of_ne c.1 c.2 hmem hne2
        exact ih (writeClaim st x.id proj c.1 c.2) it0 s
          (noDupIds_writeClaim hnd x.id proj c.1 c.2) hmem2 hlease
          (fun d hd => htimes d (List.mem_cons_of_mem c hd)) r hr2

theorem runClaims_distinct (q proj : Nat) :
    ∀ (cs : List (Nat × Int)) (st : Store), NoDupIds st →
      cs.Pairwise (fun a b => b.2 ≤ a.2 + leaseDurationMs) →
      (runClaims st q proj cs).1.Pairwise
        (fun a b => ∀ x y, a = some x → b = some y → x.id ≠ y.id) := by
  intro cs
  induction cs with
  | nil =>
    intro st _ _
    simp [runClaims_nil]
  | cons c cs ih =>
    intro st hnd hpw
    rw [List.pairwise_cons] at hpw
    obtain ⟨hhead, htail⟩ := hpw
    cases hread : claimNextRead st q proj c.2 with
    | none =>
      rw [runClaims_cons, claimNext_eq_none hread]
      rw [List.pairwise_cons]
      constructor
      · intro b _ x y hx _
        simp at hx
      · exact ih st hnd htail
    | some x =>
      rw [runClaims_cons, claimNext_eq_some hread]
      obtain ⟨hxmem, hxel, -⟩ := claimNextRead_some hread
      have hxp : x.projectId = proj := by
        rw [eligibleFor_eq_true] at hxel
        exact hxel.2.1
      have hx2 : ({ x with
          editStartTime := some c.2, editStartByUserId := some c.1 } :
            QueueItem) ∈ writeClaim st x.id proj c.1 c.2 :=
        mem_writeClaim_self c.1 c.2 hxmem hxp
      have hnd2 := noDupIds_writeClaim hnd x.id proj c.1 c.2
      have hnever := leased_not_returned q proj cs
        (writeClaim st x.id proj c.1 c.2)
        ({ x with
           editStartTime := some c.2, editStartByUserId := some c.1 })
        c.2 hnd2 hx2 rfl (fun d hd => hhead d hd)
      rw [List.pairwise_cons]
      constructor
      · intro b hb x2 y hx2eq hyeq
        have hx2x : x2 = x := (Option.some.inj hx2eq).symm
        subst hx2x
        have hyne := hnever b hb y hyeq
        exact fun hxy => hyne (hxy.symm)
      · exact ih (writeClaim st x.id proj c.1 c.2) hnd2 htail

/-- C1 (amended): sequential mutual exclusion.  For any schedule of
successive non-overlapping `next` calls whose times all fall within one
lease duration of every earlier call, on a store with unique row ids: the
calls return pairwise-distinct items (no item is handed to two of the
calls), and when the schedule is no longer than the number of pending
never-leased rows of the queue, every call receives an item.  The original
claim's concurrent form is false — the read-eligible plus write-claim step
is two separate store calls with no transaction or lease-state condition,
so overlapping calls can receive the same item (see the counterexample). -/
theorem claim_sequential_exclusion (st : Store) (q proj : Nat)
    (cs : List (Nat × Int)) (hnd : NoDupIds st)
    (hwin : cs.Pairwise (fun a b => b.2 ≤ a.2 + leaseDurationMs))
    (hcap : cs.length ≤ unclaimedCount st q proj) :
    (∀ r ∈ (runClaims st q proj cs).1, r.isSome = true) ∧
    (runClaims st q proj cs).1.Pairwise
      (fun a b => ∀ x y, a = some x → b = some y → x.id ≠ y.id) :=
  ⟨fun r hr => runClaims_all_some q proj cs st hnd hcap r hr,
   runClaims_distinct q proj cs st hnd hwin⟩

theorem claim_sequential_exclusion_witness :
    (∀ r ∈ (runClaims [mkItem 1 1 1 10 ObjType.TRACE 0,
        mkItem 2 1 1 11 ObjType.TRACE 1] 1 1 [(7, 1000), (8, 1001)]).1,
      r.isSome = true) ∧
    (runClaims [mkItem 1 1 1 10 ObjType.TRACE 0,
        mkItem 2 1 1 11 ObjType.TRACE 1] 1 1 [(7, 1000), (8, 1001)]).1.Pairwise
      (fun a b => ∀ x y, a = some x → b = some y → x.id ≠ y.id) :=
  claim_sequential_exclusion
    [mkItem 1 1 1 10 ObjType.TRACE 0, mkItem 2 1 1 11 ObjType.TRACE 1]
    1 1 [(7, 1000), (8, 1001)] (by unfold NoDupIds; decide)
    (by decide) (by decide)

end AQ
